import Mathlib

/-!
Shallow embedding of the batch download queue subsystem of MediaFlow Studio:
the `Downloader` component of src/App.tsx (batch handlers, the bounded
concurrency pool of `processBatchQueue`) together with the pieces of the
service layer (src/services/mockService.ts) they depend on.

External effects (Tauri invocations, toasts, status bar) are abstracted:
service outcomes appear as parameters or nondeterministic steps, and the
user-visible outcome of a handler is an explicit result value.
-/

set_option maxHeartbeats 1000000

namespace MediaFlow

/-- The `status` values of a `BatchItem` (src/App.tsx line 551). -/
inductive Status
  | pending
  | processing
  | completed
  | error
deriving DecidableEq

/-- `DownloadType` (src/types.ts): `Audio` or `Video`. -/
inductive DownloadType
  | audio
  | video
deriving DecidableEq

/-- `interface BatchItem` (src/App.tsx lines 548-557). -/
structure BatchItem where
  id : String
  url : String
  status : Status
  title : Option String := none
  filename : Option String := none
  progress : Nat
  errorMsg : Option String := none
  type : Option DownloadType := none
deriving DecidableEq

/-- Characters removed by `String.prototype.trim` (whitespace model). -/
def isWhitespace (c : Char) : Bool :=
  c == ' ' || c == '\t' || c == '\n' || c == '\r'

/-- Model of `String.prototype.trim`: drop whitespace at both ends. -/
def jsTrim (s : String) : String :=
  String.mk (((s.toList.dropWhile isWhitespace).reverse.dropWhile isWhitespace).reverse)

/-- Does `pat` occur at the head of the second list?  Helper for `strIncludes`. -/
def charsLead : List Char → List Char → Bool
  | [], _ => true
  | _ :: _, [] => false
  | a :: as, b :: bs => a == b && charsLead as bs

/-- Does `pat` occur anywhere in the list?  Helper for `strIncludes`. -/
def charsAnywhere (pat : List Char) : List Char → Bool
  | [] => charsLead pat []
  | b :: bs => charsLead pat (b :: bs) || charsAnywhere pat bs

/-- Model of `String.prototype.includes`, as used by the playlist check
`playlistUrl.includes('playlist')` / `playlistUrl.includes('list=')`
(src/App.tsx line 778). -/
def strIncludes (s pat : String) : Bool :=
  charsAnywhere pat.toList s.toList

/-- One entry of the playlist returned by `mockService.getPlaylistInfo`
(src/services/mockService.ts line 53). -/
structure PlaylistEntry where
  url : String
  title : String
  duration : Nat
deriving DecidableEq

/-- The record returned by `mockService.getPlaylistInfo`
(src/services/mockService.ts lines 53-77). -/
structure PlaylistInfo where
  title : String
  count : Nat
  items : List PlaylistEntry
deriving DecidableEq

/-- The user-visible outcome of `importPlaylist` (toast / early return). -/
inductive ImportOutcome
  | noInput
  | notPlaylist
  | emptyPlaylist
  | serviceErr (msg : String)
  | imported (count : Nat) (playlistTitle : String)
deriving DecidableEq

/-- `playlist.items.map(item => ({id: …, url: item.url, title: item.title,
status: 'pending', progress: 0, type: downloadType}))` (src/App.tsx lines
793-800).  The id generator `ids` stands for `Math.random().toString(36)`;
`n` is the index of the entry being converted. -/
def playlistBatchItems (dt : DownloadType) (ids : Nat → String) :
    Nat → List PlaylistEntry → List BatchItem
  | _, [] => []
  | n, e :: rest =>
    { id := ids n, url := e.url, title := some e.title, status := Status.pending,
      progress := 0, type := some dt } :: playlistBatchItems dt ids (n + 1) rest

/-- `importPlaylist` (src/App.tsx lines 773-816).  The result of the
`mockService.getPlaylistInfo` call is passed in as `serviceResult`; the
function returns the new queue and the outcome reported to the user. -/
def importPlaylist (batchInput : String) (dt : DownloadType)
    (serviceResult : Except String PlaylistInfo) (ids : Nat → String)
    (queue : List BatchItem) : List BatchItem × ImportOutcome :=
  let playlistUrl := jsTrim batchInput
  if playlistUrl == "" then (queue, ImportOutcome.noInput)
  else if !(strIncludes playlistUrl "playlist") && !(strIncludes playlistUrl "list=") then
    (queue, ImportOutcome.notPlaylist)
  else
    match serviceResult with
    | Except.error msg => (queue, ImportOutcome.serviceErr msg)
    | Except.ok playlist =>
      if playlist.items.length == 0 then (queue, ImportOutcome.emptyPlaylist)
      else (queue ++ playlistBatchItems dt ids 0 playlist.items,
            ImportOutcome.imported playlist.items.length playlist.title)

/-- Splitting of the textarea input on newlines (`batchInput.split('\n')`,
src/App.tsx line 754). -/
def splitLines : List Char → List (List Char)
  | [] => [[]]
  | c :: rest =>
    match splitLines rest with
    | [] => [[]]
    | cur :: done => if c == '\n' then [] :: cur :: done else (c :: cur) :: done

/-- `urls.map(u => ({id: …, url: u.trim(), status: 'pending', progress: 0,
type: downloadType}))` (src/App.tsx lines 755-761). -/
def urlBatchItems (dt : DownloadType) (ids : Nat → String) :
    Nat → List String → List BatchItem
  | _, [] => []
  | n, u :: rest =>
    { id := ids n, url := jsTrim u, status := Status.pending, progress := 0,
      type := some dt } :: urlBatchItems dt ids (n + 1) rest

/-- `addToBatch` (src/App.tsx lines 752-764). -/
def addToBatch (batchInput : String) (dt : DownloadType) (ids : Nat → String)
    (queue : List BatchItem) : List BatchItem :=
  if jsTrim batchInput == "" then queue
  else
    let urls := ((splitLines batchInput.toList).map String.mk).filter
      (fun u => (jsTrim u).length > 0)
    queue ++ urlBatchItems dt ids 0 urls

/-- `clearQueue` (src/App.tsx lines 766-770): a no-op while a batch is
processing, otherwise empties the queue and zeroes the completed counter. -/
def clearQueue (processingBatch : Bool) (queue : List BatchItem)
    (completedCount : Nat) : List BatchItem × Nat :=
  if processingBatch then (queue, completedCount) else ([], 0)

/-- `CONCURRENCY` (src/App.tsx line 576). -/
def CONCURRENCY : Nat := 3

/-- The per-item body of the queue rewrite at the start of
`processBatchQueue` (src/App.tsx lines 824-827): an item whose id occurs in
`itemsToProcess` is reset to pending with progress 0 and cleared error
message, any other item is left alone. -/
def resetFn (itemsToProcess : List BatchItem) (item : BatchItem) : BatchItem :=
  if itemsToProcess.any (fun t => t.id == item.id) then
    { item with status := Status.pending, progress := 0, errorMsg := none }
  else item

/-- The queue rewrite at the start of `processBatchQueue` (src/App.tsx lines
824-828). -/
def resetTargets (itemsToProcess fullQueue : List BatchItem) : List BatchItem :=
  fullQueue.map (resetFn itemsToProcess)

/-- The ids the pool loop of `processBatchQueue` iterates over:
`updatedQueue.filter(i => i.status === 'pending')` (src/App.tsx line 869).
This is the set of items actually downloaded by the submission. -/
def submissionProcessSet (itemsToProcess fullQueue : List BatchItem) : List String :=
  ((resetTargets itemsToProcess fullQueue).filter
    (fun i => i.status == Status.pending)).map (fun i => i.id)

/-- Guard and target selection of `handleBatchProcess` (src/App.tsx lines
887-895): `none` means the handler returned without submitting; `some ts`
means `processBatchQueue(ts, batchQueue)` was called. -/
def handleBatchProcess (processingBatch : Bool) (queue : List BatchItem) :
    Option (List BatchItem) :=
  if queue.length == 0 || processingBatch then none
  else
    let itemsToProcess := queue.filter (fun item => !(item.status == Status.completed))
    if itemsToProcess.length == 0 then some queue else some itemsToProcess

/-- Guard and target selection of `handleRetryFailed` (src/App.tsx lines
897-901). -/
def handleRetryFailed (processingBatch : Bool) (queue : List BatchItem) :
    Option (List BatchItem) :=
  let failedItems := queue.filter (fun item => item.status == Status.error)
  if failedItems.length == 0 || processingBatch then none else some failedItems

/-- Guard and target selection of `handleRetryItem` (src/App.tsx lines
903-907). -/
def handleRetryItem (processingBatch : Bool) (queue : List BatchItem)
    (id : String) : Option (List BatchItem) :=
  match queue.find? (fun i => i.id == id) with
  | none => none
  | some itemToRetry => if processingBatch then none else some [itemToRetry]

/-- `totalProgress` (src/App.tsx line 910), computed over the rationals. -/
def totalProgress (completedCount : Nat) (batchQueue : List BatchItem) : ℚ :=
  if batchQueue.length > 0 then
    ((completedCount : ℚ) / (batchQueue.length : ℚ)) * 100
  else 0

/-- C7: an input URL containing neither `list=` nor `playlist` is rejected
with the not-a-playlist warning, for every possible service behavior (so no
service call is observable) and with the queue returned unchanged. -/
theorem importPlaylist_rejects_non_playlist (input : String) (dt : DownloadType)
    (svc : Except String PlaylistInfo) (ids : Nat → String) (q : List BatchItem)
    (hne : jsTrim input ≠ "")
    (h1 : strIncludes (jsTrim input) "playlist" = false)
    (h2 : strIncludes (jsTrim input) "list=" = false) :
    importPlaylist input dt svc ids q = (q, ImportOutcome.notPlaylist) := by
  unfold importPlaylist
  simp only [beq_iff_eq, h1, h2]
  rw [if_neg hne]
  simp

/-- A concrete playlist with one entry, used by the C7 witness. -/
def c7Playlist : PlaylistInfo :=
  { title := "t", count := 1, items := [{ url := "u", title := "v", duration := 1 }] }

/-- Witness for C7 at the concrete non-playlist URL from the spec scenario. -/
theorem importPlaylist_rejects_non_playlist_witness :
    importPlaylist "https://x/watch?v=abc" DownloadType.video
      (Except.ok c7Playlist) (fun _ => "id0") [] = ([], ImportOutcome.notPlaylist) :=
  importPlaylist_rejects_non_playlist _ _ _ _ _
    (by decide) (by decide) (by decide)

/-- C10: the aggregate batch progress is a total, well-defined rational:
it is 0 on the empty queue (the division is guarded by a length test) and
`completedCount / length * 100` otherwise. -/
theorem totalProgress_welldef (c : Nat) (q : List BatchItem) :
    (q = [] → totalProgress c q = 0) ∧
    (q ≠ [] → totalProgress c q = (c : ℚ) / (q.length : ℚ) * 100) := by
  constructor
  · intro h
    subst h
    simp [totalProgress]
  · intro h
    have hl : 0 < q.length := List.length_pos.mpr h
    simp [totalProgress, hl]

/-- A concrete completed item, used by the C10 witness. -/
def c10Item : BatchItem :=
  { id := "a", url := "u", status := Status.completed, progress := 100 }

/-- Witness for C10 on the empty queue and on a one-element queue. -/
theorem totalProgress_welldef_witness :
    totalProgress 2 ([] : List BatchItem) = 0 ∧
    totalProgress 1 [c10Item] = 100 := by
  constructor
  · exact (totalProgress_welldef 2 []).1 rfl
  · have h := (totalProgress_welldef 1 [c10Item]).2 (by simp)
    rw [h]
    norm_num

/-- The per-item queue patch used everywhere inside `processBatchQueue`:
`prev.map(item => item.id === itemId ? {...item, …} : item)` (src/App.tsx
lines 831, 834, 857, 860, 864). -/
def updateItem (q : List BatchItem) (targetId : String)
    (f : BatchItem → BatchItem) : List BatchItem :=
  q.map (fun item => if item.id == targetId then f item else item)

/-- `{...item, status: 'processing'}` (src/App.tsx line 831). -/
def setProcessingF : BatchItem → BatchItem :=
  fun it => { it with status := Status.processing }

/-- `{...item, title: info.title}` (src/App.tsx line 834). -/
def setTitleF (title : String) : BatchItem → BatchItem :=
  fun it => { it with title := some title }

/-- `{...item, progress: prog}` (src/App.tsx line 857). -/
def setProgressF (p : Nat) : BatchItem → BatchItem :=
  fun it => { it with progress := p }

/-- `{...item, status: 'error', errorMsg: …}` (src/App.tsx line 864), for a
`getVideoInfo` failure: progress untouched. -/
def metaFailF (msg : String) : BatchItem → BatchItem :=
  fun it => { it with status := Status.error, errorMsg := some msg }

/-- The composite effect of a `downloadMedia` failure: the service's catch
emits `onProgress(0)` (src/services/mockService.ts line 143) and then the
catch of `downloadItem` sets `status: 'error'` and `errorMsg`
(src/App.tsx line 864). -/
def acquireFailF (msg : String) : BatchItem → BatchItem :=
  fun it => { it with progress := 0, status := Status.error, errorMsg := some msg }

/-- `{...item, status: 'completed', progress: 100}` (src/App.tsx line 860). -/
def finishOkF : BatchItem → BatchItem :=
  fun it => { it with status := Status.completed, progress := 100 }

/-- State of one in-flight `processBatchQueue` run: the shared queue, the
completed counter, the ids currently in the promise pool (`pool`), and the
ids of pending items the `for` loop has not started yet. -/
structure SchedState where
  queue : List BatchItem
  completedCount : Nat
  running : List String
  toStart : List String
deriving DecidableEq

/-- Small-step semantics of the pool loop and of `downloadItem` inside
`processBatchQueue` (src/App.tsx lines 830-881), composed with the service
behavior of `mockService` (src/services/mockService.ts):

* `spawn`: the `for` loop starts `downloadItem` on the next pending item;
  this sets the item's status to `processing` (line 831).  The loop admits a
  new item only while the pool holds fewer than `CONCURRENCY` promises
  (lines 872-880: after pushing, the loop blocks on `Promise.race` until a
  slot frees).
* `setTitle`: `getVideoInfo` resolved and the title is stored (line 834).
* `progressUpd`: a progress callback from `downloadMedia` patches the item's
  progress (lines 856-858).
* `metaFail`: `getVideoInfo` threw; the catch sets `status: 'error'` and
  `errorMsg` (lines 863-865), leaving progress untouched.
* `acquireFail`: `downloadMedia` threw; its own catch first emits
  `onProgress(0)` (src/services/mockService.ts line 143), then the rethrown
  error reaches the catch of `downloadItem`, which sets `status: 'error'`
  and `errorMsg` (lines 863-865).
* `finishOk`: `downloadMedia` resolved; the item becomes `completed` with
  progress 100 and the completed counter is incremented (lines 860-861).

Every terminal step removes the item's promise from the pool (line 874). -/
inductive SchedStep : SchedState → SchedState → Prop
  | spawn (s : SchedState) (id : String) (rest : List String)
      (hq : s.toStart = id :: rest) (hc : s.running.length < CONCURRENCY) :
      SchedStep s { s with
        queue := updateItem s.queue id setProcessingF,
        running := s.running ++ [id],
        toStart := rest }
  | setTitle (s : SchedState) (id : String) (title : String)
      (hid : id ∈ s.running) :
      SchedStep s { s with
        queue := updateItem s.queue id (setTitleF title) }
  | progressUpd (s : SchedState) (id : String) (p : Nat) (hid : id ∈ s.running) :
      SchedStep s { s with
        queue := updateItem s.queue id (setProgressF p) }
  | metaFail (s : SchedState) (id : String) (msg : String) (hid : id ∈ s.running) :
      SchedStep s { s with
        queue := updateItem s.queue id (metaFailF msg),
        running := s.running.erase id }
  | acquireFail (s : SchedState) (id : String) (msg : String) (hid : id ∈ s.running) :
      SchedStep s { s with
        queue := updateItem s.queue id (acquireFailF msg),
        running := s.running.erase id }
  | finishOk (s : SchedState) (id : String) (hid : id ∈ s.running) :
      SchedStep s { s with
        queue := updateItem s.queue id finishOkF,
        completedCount := s.completedCount + 1,
        running := s.running.erase id }

/-- Reachability along scheduler steps. -/
def SchedReach : SchedState → SchedState → Prop :=
  Relation.ReflTransGen SchedStep

/-- The state of `processBatchQueue(itemsToProcess, fullQueue)` right after
its prologue (src/App.tsx lines 818-828 and 869-870): targets reset, the
completed counter recomputed from the old queue, empty pool, and the pending
items of the updated queue queued for the loop. -/
def initSched (itemsToProcess fullQueue : List BatchItem) : SchedState :=
  { queue := resetTargets itemsToProcess fullQueue,
    completedCount :=
      (fullQueue.filter (fun i => i.status == Status.completed)).length,
    running := [],
    toStart := submissionProcessSet itemsToProcess fullQueue }

theorem resetFn_id (ts : List BatchItem) (it : BatchItem) :
    (resetFn ts it).id = it.id := by
  unfold resetFn
  by_cases h : ts.any (fun t => t.id == it.id) <;> simp [h]

theorem map_key_of_preserve (q : List BatchItem) (g : BatchItem → BatchItem)
    (hg : ∀ x, (g x).id = x.id) :
    (q.map g).map (fun i => i.id) = q.map (fun i => i.id) := by
  induction q with
  | nil => rfl
  | cons a l ih => simp [hg, ih]

theorem find?_key_map (q : List BatchItem) (g : BatchItem → BatchItem)
    (k : String) (hg : ∀ x, (g x).id = x.id) :
    (q.map g).find? (fun i => i.id == k)
      = (q.find? (fun i => i.id == k)).map g := by
  induction q with
  | nil => rfl
  | cons a l ih =>
    by_cases h : a.id = k
    · rw [List.map_cons,
        List.find?_cons_of_pos _ (by simp [hg, h]),
        List.find?_cons_of_pos _ (by simp [h])]
      rfl
    · rw [List.map_cons,
        List.find?_cons_of_neg _ (by simp [hg, h]),
        List.find?_cons_of_neg _ (by simp [h])]
      exact ih

theorem mem_key_unique (q : List BatchItem)
    (hnd : (q.map (fun i => i.id)).Nodup) (a b : BatchItem)
    (ha : a ∈ q) (hb : b ∈ q) (hid : a.id = b.id) : a = b :=
  List.inj_on_of_nodup_map hnd ha hb hid

theorem find?_key_of_mem (q : List BatchItem)
    (hnd : (q.map (fun i => i.id)).Nodup) (it : BatchItem) (hmem : it ∈ q) :
    q.find? (fun i => i.id == it.id) = some it := by
  induction q with
  | nil => cases hmem
  | cons a l ih =>
    rcases List.mem_cons.mp hmem with h | h
    · subst h
      exact List.find?_cons_of_pos _ (by simp)
    · have hnd' := hnd
      rw [List.map_cons, List.nodup_cons] at hnd'
      have hne : ¬a.id = it.id := by
        intro heq
        exact hnd'.1 (heq ▸ List.mem_map_of_mem (fun i => i.id) h)
      rw [List.find?_cons_of_neg _ (by simp [hne])]
      exact ih hnd'.2 h

theorem find?_resetTargets (ts q : List BatchItem)
    (hnd : (q.map (fun i => i.id)).Nodup) (it : BatchItem) (hmem : it ∈ q) :
    (resetTargets ts q).find? (fun i => i.id == it.id)
      = some (resetFn ts it) := by
  rw [resetTargets, find?_key_map q _ _ (resetFn_id ts),
    find?_key_of_mem q hnd it hmem]
  rfl

theorem any_key_iff (ts q : List BatchItem)
    (hnd : (q.map (fun i => i.id)).Nodup) (hsub : ts.Sublist q)
    (it : BatchItem) (hmem : it ∈ q) :
    (ts.any (fun t => t.id == it.id) = true) ↔ it ∈ ts := by
  simp only [List.any_eq_true, beq_iff_eq]
  constructor
  · rintro ⟨t, ht, hid⟩
    have heq : t = it := mem_key_unique q hnd t it (hsub.subset ht) hmem hid
    exact heq ▸ ht
  · intro h
    exact ⟨it, h, rfl⟩

theorem mem_submissionProcessSet (ts q : List BatchItem)
    (hnd : (q.map (fun i => i.id)).Nodup) (it : BatchItem) (hmem : it ∈ q) :
    (it.id ∈ submissionProcessSet ts q)
      ↔ (resetFn ts it).status = Status.pending := by
  unfold submissionProcessSet resetTargets
  simp only [List.mem_map, List.mem_filter, beq_iff_eq]
  constructor
  · rintro ⟨b, ⟨⟨a, ha, rfl⟩, hstat⟩, hbid⟩
    rw [resetFn_id] at hbid
    have heq : a = it := mem_key_unique q hnd a it ha hmem hbid
    exact heq ▸ hstat
  · intro h
    exact ⟨resetFn ts it, ⟨⟨it, hmem, rfl⟩, h⟩, resetFn_id ts it⟩

theorem resetFn_of_target (ts : List BatchItem) (it : BatchItem)
    (h : ts.any (fun t => t.id == it.id) = true) :
    resetFn ts it
      = { it with status := Status.pending, progress := 0, errorMsg := none } := by
  simp [resetFn, h]

theorem resetFn_of_not_target (ts : List BatchItem) (it : BatchItem)
    (h : ¬ts.any (fun t => t.id == it.id) = true) :
    resetFn ts it = it := by
  simp only [resetFn, if_neg h]

/-- C1 (corrected): with no submission in flight and at least one failed
item, `handleRetryFailed` submits exactly the items currently in error;
those are reset to pending with progress 0 and cleared error message, items
not in error keep their state — but the submission's pool loop processes
every item that is pending after the reset, i.e. the failed items *plus*
every item that was already pending at call time.  Completed (and
processing) items are neither reset nor processed. -/
theorem retryFailed_amended (q : List BatchItem)
    (hnd : (q.map (fun i => i.id)).Nodup)
    (hfail : q.filter (fun i => i.status == Status.error) ≠ []) :
    handleRetryFailed false q
        = some (q.filter (fun i => i.status == Status.error)) ∧
    (∀ it ∈ q, it.status = Status.error →
      (resetTargets (q.filter (fun i => i.status == Status.error)) q).find?
          (fun i => i.id == it.id)
        = some { it with
            status := Status.pending, progress := 0, errorMsg := none }) ∧
    (∀ it ∈ q, it.status ≠ Status.error →
      (resetTargets (q.filter (fun i => i.status == Status.error)) q).find?
          (fun i => i.id == it.id) = some it) ∧
    (∀ it ∈ q,
      it.id ∈ submissionProcessSet
          (q.filter (fun i => i.status == Status.error)) q
        ↔ (it.status = Status.error ∨ it.status = Status.pending)) := by
  have htarget : ∀ it ∈ q,
      ((q.filter (fun i => i.status == Status.error)).any
        (fun t => t.id == it.id) = true) ↔ it.status = Status.error := by
    intro it hmem
    rw [any_key_iff _ q hnd (List.filter_sublist q) it hmem, List.mem_filter]
    simp [hmem]
  refine ⟨?_, ?_, ?_, ?_⟩
  · unfold handleRetryFailed
    rw [if_neg]
    simp only [Bool.or_false, beq_iff_eq, ne_eq]
    intro h
    exact hfail (List.length_eq_zero.mp h)
  · intro it hmem hstat
    rw [find?_resetTargets _ q hnd it hmem,
      resetFn_of_target _ it ((htarget it hmem).mpr hstat)]
  · intro it hmem hstat
    rw [find?_resetTargets _ q hnd it hmem, resetFn_of_not_target _ it]
    rw [htarget it hmem]
    exact hstat
  · intro it hmem
    rw [mem_submissionProcessSet _ q hnd it hmem]
    by_cases hstat : it.status = Status.error
    · rw [resetFn_of_target _ it ((htarget it hmem).mpr hstat)]
      simp [hstat]
    · rw [resetFn_of_not_target _ it (by rw [htarget it hmem]; exact hstat)]
      simp [hstat]

/-- Pending item used in the C1 counterexample and witness. -/
def c1A : BatchItem := { id := "a", url := "ua", status := Status.pending, progress := 0 }

/-- Failed item used in the C1 counterexample and witness. -/
def c1B : BatchItem :=
  { id := "b", url := "ub", status := Status.error, progress := 0,
    errorMsg := some "boom" }

/-- C1 counterexample: on the queue `[pending a, error b]`, `retryFailed`
submits `[b]`, yet the item `a` — which is not in error at call time — is in
the set of ids the resulting submission processes, contradicting the claim
that non-error items are not processed by that call. -/
theorem retryFailed_cex :
    handleRetryFailed false [c1A, c1B] = some [c1B] ∧
    c1A.status ≠ Status.error ∧
    c1A.id ∈ submissionProcessSet [c1B] [c1A, c1B] := by
  decide

/-- Witness for the amended C1 theorem on the queue `[pending a, error b]`. -/
theorem retryFailed_amended_witness :
    handleRetryFailed false [c1A, c1B]
      = some ([c1A, c1B].filter (fun i => i.status == Status.error)) :=
  (retryFailed_amended [c1A, c1B] (by decide) (by decide)).1

/-- C2 (corrected): `handleRetryItem` ignores the status of the selected
item: with no submission in flight, any id that resolves to an item in the
queue is submitted, the item is reset to pending (whatever its status), and
the pool loop processes it together with every item that is pending at call
time.  The only no-op cases are an unknown id and an in-flight submission. -/
theorem retryOne_amended (q : List BatchItem) (id : String) (item : BatchItem)
    (hnd : (q.map (fun i => i.id)).Nodup)
    (hfind : q.find? (fun i => i.id == id) = some item) :
    handleRetryItem false q id = some [item] ∧
    handleRetryItem true q id = none ∧
    ((resetTargets [item] q).find? (fun i => i.id == item.id)
      = some { item with
          status := Status.pending, progress := 0, errorMsg := none }) ∧
    (∀ it ∈ q, it.id ∈ submissionProcessSet [item] q
      ↔ (it.id = item.id ∨ it.status = Status.pending)) := by
  have hmem : item ∈ q := List.mem_of_find?_eq_some hfind
  refine ⟨?_, ?_, ?_, ?_⟩
  · unfold handleRetryItem
    rw [hfind]
    rfl
  · unfold handleRetryItem
    rw [hfind]
    rfl
  · rw [find?_resetTargets _ q hnd item hmem,
      resetFn_of_target _ item (by simp)]
  · intro it hit
    rw [mem_submissionProcessSet _ q hnd it hit]
    unfold resetFn
    by_cases hid : item.id = it.id
    · simp [hid]
    · rw [if_neg (by simp [hid])]
      constructor
      · intro h
        exact Or.inr h
      · rintro (h | h)
        · exact absurd h.symm hid
        · exact h

/-- Pending item used in the C2 counterexample. -/
def c2A : BatchItem := { id := "a", url := "ua", status := Status.pending, progress := 0 }

/-- Completed item used in the C2 counterexample and witness. -/
def c2B : BatchItem :=
  { id := "b", url := "ub", status := Status.completed, progress := 100 }

/-- C2 counterexample: `retryOne` on a *completed* item is not a no-op — the
item is submitted and processed — and on the queue `[pending a, completed
b]` the call for `b` additionally processes `a`, so it does not process
"only the single identified item". -/
theorem retryOne_cex :
    c2B.status ≠ Status.error ∧
    handleRetryItem false [c2A, c2B] "b" = some [c2B] ∧
    c2B.id ∈ submissionProcessSet [c2B] [c2A, c2B] ∧
    c2A.id ∈ submissionProcessSet [c2B] [c2A, c2B] := by
  decide

/-- Witness for the amended C2 theorem. -/
theorem retryOne_amended_witness :
    handleRetryItem false [c2A, c2B] "b" = some [c2B] :=
  (retryOne_amended [c2A, c2B] "b" c2B (by decide) (by decide)).1

/-- C5 (corrected): with the queue non-empty and no submission in flight,
`handleBatchProcess` submits exactly the non-completed items *when at least
one exists*: in that case completed items are neither reset nor processed.
But when every item is completed, the handler submits the whole queue, so
every completed item is reset to pending and reprocessed.  While a
submission is in flight the handler is a no-op. -/
theorem start_amended (q : List BatchItem)
    (hnd : (q.map (fun i => i.id)).Nodup) (hq : q ≠ []) :
    (q.filter (fun i => !(i.status == Status.completed)) ≠ [] →
      handleBatchProcess false q
          = some (q.filter (fun i => !(i.status == Status.completed))) ∧
      (∀ it ∈ q, it.status = Status.completed →
        (resetTargets (q.filter (fun i => !(i.status == Status.completed))) q).find?
            (fun i => i.id == it.id) = some it ∧
        it.id ∉ submissionProcessSet
            (q.filter (fun i => !(i.status == Status.completed))) q)) ∧
    (q.filter (fun i => !(i.status == Status.completed)) = [] →
      handleBatchProcess false q = some q ∧
      ∀ it ∈ q, it.id ∈ submissionProcessSet q q) ∧
    handleBatchProcess true q = none := by
  have htarget : ∀ it ∈ q,
      ((q.filter (fun i => !(i.status == Status.completed))).any
        (fun t => t.id == it.id) = true) ↔ ¬it.status = Status.completed := by
    intro it hmem
    rw [any_key_iff _ q hnd (List.filter_sublist q) it hmem, List.mem_filter]
    simp [hmem]
  refine ⟨?_, ?_, ?_⟩
  · intro hne
    constructor
    · unfold handleBatchProcess
      rw [if_neg (by simp [hq])]
      simp only
      rw [if_neg]
      simp only [beq_iff_eq]
      intro h
      exact hne (List.length_eq_zero.mp h)
    · intro it hmem hstat
      constructor
      · rw [find?_resetTargets _ q hnd it hmem, resetFn_of_not_target _ it]
        rw [htarget it hmem]
        simp [hstat]
      · rw [mem_submissionProcessSet _ q hnd it hmem,
          resetFn_of_not_target _ it (by rw [htarget it hmem]; simp [hstat])]
        simp [hstat]
  · intro hall
    constructor
    · unfold handleBatchProcess
      rw [if_neg (by simp [hq])]
      simp only
      rw [if_pos (by simp [hall])]
    · intro it hmem
      rw [mem_submissionProcessSet q q hnd it hmem,
        resetFn_of_target q it ((any_key_iff q q hnd (List.Sublist.refl q)
          it hmem).mpr hmem)]
  · unfold handleBatchProcess
    rw [if_pos (by simp)]

/-- Completed item used in the C5 counterexample. -/
def c5Done : BatchItem :=
  { id := "d", url := "ud", status := Status.completed, progress := 100 }

/-- C5 counterexample: on the all-completed queue `[completed d]`,
`handleBatchProcess` submits the whole queue, the completed item is reset to
pending and its id is processed by the submission — contradicting the claim
that completed items are never reset or reprocessed by `start()`. -/
theorem start_cex :
    handleBatchProcess false [c5Done] = some [c5Done] ∧
    c5Done.status = Status.completed ∧
    c5Done.id ∈ submissionProcessSet [c5Done] [c5Done] ∧
    (resetTargets [c5Done] [c5Done]).find? (fun i => i.id == "d")
      = some { c5Done with
          status := Status.pending, progress := 0, errorMsg := none } := by
  decide

/-- Pending and completed items used in the C5 witness. -/
def c5P : BatchItem := { id := "p", url := "up", status := Status.pending, progress := 0 }

/-- Witness for the amended C5 theorem on the queue `[pending p, completed d]`. -/
theorem start_amended_witness :
    handleBatchProcess false [c5P, c5Done]
      = some ([c5P, c5Done].filter (fun i => !(i.status == Status.completed))) :=
  ((start_amended [c5P, c5Done] (by decide) (by decide)).1 (by decide)).1

/-- C6 (corrected): when `downloadMedia` throws, the service's catch first
emits `onProgress(0)` and only then rethrows, so the item ends in status
error with an error message and its progress *reset to 0* — it does not
retain the last value observed before the failure. -/
theorem find?_updateItem (q : List BatchItem) (tid : String)
    (f : BatchItem → BatchItem) (hf : ∀ x, (f x).id = x.id) (k : String) :
    (updateItem q tid f).find? (fun i => i.id == k)
      = (q.find? (fun i => i.id == k)).map
          (fun x => if x.id == tid then f x else x) := by
  unfold updateItem
  apply find?_key_map
  intro x
  by_cases h : x.id = tid <;> simp [h, hf]

theorem acquireFail_resets_progress (s : SchedState) (id msg : String)
    (it : BatchItem) (hid : id ∈ s.running)
    (hfind : s.queue.find? (fun i => i.id == id) = some it) :
    ∃ s2, SchedStep s s2 ∧
      s2.queue.find? (fun i => i.id == id)
        = some { it with
            progress := 0, status := Status.error, errorMsg := some msg } := by
  refine ⟨_, SchedStep.acquireFail s id msg hid, ?_⟩
  have hkey : (it.id == id) = true := by
    have h := List.find?_some hfind
    simpa using h
  show (updateItem s.queue id (acquireFailF msg)).find? (fun i => i.id == id) = _
  rw [find?_updateItem s.queue id (acquireFailF msg) (fun x => rfl) id, hfind]
  have hit : it.id = id := by simpa using hkey
  simp [hit, acquireFailF]

/-- Pending item used in the C6 counterexample and witness. -/
def c6It : BatchItem := { id := "a", url := "u", status := Status.pending, progress := 0 }

/-- C6 counterexample: a concrete run of one item in which a progress
callback delivers 50 and the download then fails: the final item has
progress 0, not the last observed value 50 — the claim's "progress retains
the last value observed" is false on the code. -/
theorem acquireFail_cex :
    ∃ s1 s2 s3,
      SchedStep (initSched [c6It] [c6It]) s1 ∧ SchedStep s1 s2 ∧
      SchedStep s2 s3 ∧
      s2.queue.find? (fun i => i.id == "a")
        = some { c6It with status := Status.processing, progress := 50 } ∧
      s3.queue.find? (fun i => i.id == "a")
        = some { c6It with
            status := Status.error, progress := 0, errorMsg := some "boom" } ∧
      ¬(50 : Nat) = 0 := by
  refine ⟨_, _, _, SchedStep.spawn _ "a" [] (by decide) (by decide),
    SchedStep.progressUpd _ "a" 50 (by decide),
    SchedStep.acquireFail _ "a" "boom" (by decide), ?_, ?_, by decide⟩
  · decide
  · decide

/-- Witness for the amended C6 theorem on a concrete one-item state. -/
theorem acquireFail_resets_progress_witness :
    ∃ s2,
      SchedStep
        { queue := [{ c6It with status := Status.processing, progress := 50 }],
          completedCount := 0, running := ["a"], toStart := [] } s2 ∧
      s2.queue.find? (fun i => i.id == "a")
        = some { c6It with
            progress := 0, status := Status.error, errorMsg := some "oops" } :=
  acquireFail_resets_progress _ "a" "oops"
    { c6It with status := Status.processing, progress := 50 }
    (by decide) (by decide)

theorem playlistBatchItems_length (dt : DownloadType) (ids : Nat → String)
    (l : List PlaylistEntry) : ∀ n, (playlistBatchItems dt ids n l).length = l.length := by
  induction l with
  | nil => intro n; rfl
  | cons e rest ih =>
    intro n
    simp [playlistBatchItems, ih (n + 1)]

theorem playlistBatchItems_get? (dt : DownloadType) (ids : Nat → String)
    (l : List PlaylistEntry) :
    ∀ n k e, l.get? k = some e →
      (playlistBatchItems dt ids n l).get? k
        = some { id := ids (n + k), url := e.url, title := some e.title,
                 status := Status.pending, progress := 0, type := some dt } := by
  induction l with
  | nil =>
    intro n k e h
    simp at h
  | cons a rest ih =>
    intro n k e h
    cases k with
    | zero =>
      have ha : a = e := by simpa using h
      subst ha
      simp [playlistBatchItems]
    | succ k =>
      have h2 : rest.get? k = some e := by simpa using h
      have h3 := ih (n + 1) k e h2
      have h4 : (playlistBatchItems dt ids n (a :: rest)).get? (k + 1)
          = (playlistBatchItems dt ids (n + 1) rest).get? k := rfl
      rw [h4, h3]
      have h5 : n + 1 + k = n + (k + 1) := by omega
      rw [h5]

/-- C8: on a successful playlist resolution through a validated input, a
result with k > 0 entries appends exactly k new items at the end of the
queue, one per entry in the returned order, each pending with progress 0,
the entry's url and title and the selected media type, leaving the existing
items at their positions; an empty result reports the distinct
empty-playlist outcome and appends nothing. -/
theorem importPlaylist_appends (input : String) (dt : DownloadType)
    (pl : PlaylistInfo) (ids : Nat → String) (q : List BatchItem)
    (hne : jsTrim input ≠ "")
    (hmark : strIncludes (jsTrim input) "playlist" = true ∨
      strIncludes (jsTrim input) "list=" = true) :
    (pl.items ≠ [] →
      importPlaylist input dt (Except.ok pl) ids q
        = (q ++ playlistBatchItems dt ids 0 pl.items,
           ImportOutcome.imported pl.items.length pl.title) ∧
      (q ++ playlistBatchItems dt ids 0 pl.items).length
        = q.length + pl.items.length ∧
      (∀ k, k < q.length →
        (q ++ playlistBatchItems dt ids 0 pl.items).get? k = q.get? k) ∧
      (∀ k e, pl.items.get? k = some e →
        (q ++ playlistBatchItems dt ids 0 pl.items).get? (q.length + k)
          = some { id := ids k, url := e.url, title := some e.title,
                   status := Status.pending, progress := 0, type := some dt })) ∧
    (pl.items = [] →
      importPlaylist input dt (Except.ok pl) ids q
        = (q, ImportOutcome.emptyPlaylist)) := by
  have hguard : ∀ r : Except String PlaylistInfo,
      importPlaylist input dt r ids q
        = match r with
          | Except.error msg => (q, ImportOutcome.serviceErr msg)
          | Except.ok playlist =>
            if playlist.items.length == 0 then (q, ImportOutcome.emptyPlaylist)
            else (q ++ playlistBatchItems dt ids 0 playlist.items,
                  ImportOutcome.imported playlist.items.length playlist.title) := by
    intro r
    unfold importPlaylist
    rw [if_neg (by simpa using hne), if_neg]
    rcases hmark with h | h <;> simp [h]
  have hok : importPlaylist input dt (Except.ok pl) ids q
      = if pl.items.length == 0 then (q, ImportOutcome.emptyPlaylist)
        else (q ++ playlistBatchItems dt ids 0 pl.items,
              ImportOutcome.imported pl.items.length pl.title) := by
    rw [hguard]
  constructor
  · intro hnonempty
    refine ⟨?_, ?_, ?_, ?_⟩
    · rw [hok, if_neg (by simpa using hnonempty)]
    · simp [playlistBatchItems_length]
    · intro k hk
      exact List.get?_append hk
    · intro k e he
      rw [List.get?_append_right (Nat.le_add_right _ _),
        Nat.add_sub_cancel_left]
      have h := playlistBatchItems_get? dt ids pl.items 0 k e he
      rw [h]
      simp
  · intro hempty
    rw [hok, if_pos (by simp [hempty])]

/-- Concrete playlist used in the C8 witness. -/
def c8Playlist : PlaylistInfo :=
  { title := "P", count := 2,
    items := [{ url := "u1", title := "t1", duration := 10 },
              { url := "u2", title := "t2", duration := 20 }] }

/-- Witness for C8 on a concrete two-entry playlist. -/
theorem importPlaylist_appends_witness :
    importPlaylist "https://x/playlist?list=PL1" DownloadType.audio
      (Except.ok c8Playlist) (fun n => if n == 0 then "i0" else "i1") []
      = ([] ++ playlistBatchItems DownloadType.audio
          (fun n => if n == 0 then "i0" else "i1") 0 c8Playlist.items,
         ImportOutcome.imported c8Playlist.items.length c8Playlist.title) :=
  ((importPlaylist_appends "https://x/playlist?list=PL1" DownloadType.audio
    c8Playlist (fun n => if n == 0 then "i0" else "i1") []
    (by decide) (Or.inl (by decide))).1 (by decide)).1

/-- Status of the (first) queue item with the given id, mirroring
`batchQueue.find(i => i.id === id)?.status`. -/
def statusById (q : List BatchItem) (k : String) : Option Status :=
  (q.find? (fun i => i.id == k)).map (fun i => i.status)

theorem updateItem_map_id (q : List BatchItem) (tid : String)
    (f : BatchItem → BatchItem) (hf : ∀ x, (f x).id = x.id) :
    (updateItem q tid f).map (fun i => i.id) = q.map (fun i => i.id) := by
  unfold updateItem
  apply map_key_of_preserve
  intro x
  by_cases h : x.id = tid <;> simp [h, hf]

theorem statusById_updateItem (q : List BatchItem) (tid : String)
    (f : BatchItem → BatchItem) (hf : ∀ x, (f x).id = x.id) (k : String) :
    statusById (updateItem q tid f) k
      = (q.find? (fun i => i.id == k)).map
          (fun x => if x.id == tid then (f x).status else x.status) := by
  unfold statusById
  rw [find?_updateItem q tid f hf k]
  cases q.find? (fun i => i.id == k) with
  | none => rfl
  | some it => by_cases h : it.id = tid <;> simp [h]

theorem statusById_updateItem_ne (q : List BatchItem) (tid : String)
    (f : BatchItem → BatchItem) (hf : ∀ x, (f x).id = x.id) (k : String)
    (hk : ¬k = tid) :
    statusById (updateItem q tid f) k = statusById q k := by
  rw [statusById_updateItem q tid f hf k]
  unfold statusById
  cases hfind : q.find? (fun i => i.id == k) with
  | none => rfl
  | some it =>
    have hid : it.id = k := by
      have h := List.find?_some hfind
      simpa using h
    simp [hid, hk]

theorem statusById_updateItem_statuspres (q : List BatchItem) (tid : String)
    (f : BatchItem → BatchItem) (hf : ∀ x, (f x).id = x.id)
    (hs : ∀ x, (f x).status = x.status) (k : String) :
    statusById (updateItem q tid f) k = statusById q k := by
  rw [statusById_updateItem q tid f hf k]
  unfold statusById
  cases q.find? (fun i => i.id == k) with
  | none => rfl
  | some it => by_cases h : it.id = tid <;> simp [h, hs]

theorem find?_isSome_of_mem {q : List BatchItem} {it : BatchItem}
    (h : it ∈ q) (k : String) (hk : it.id = k) :
    ∃ j, q.find? (fun i => i.id == k) = some j := by
  induction q with
  | nil => cases h
  | cons a t ih =>
    by_cases ha : (a.id == k) = true
    · exact ⟨a, List.find?_cons_of_pos _ ha⟩
    · rcases List.mem_cons.mp h with rfl | hmem
      · exact absurd (by simp [hk]) ha
      · obtain ⟨j, hj⟩ := ih hmem
        exact ⟨j, by simp [ha, hj]⟩

theorem find?_isSome_of_mem_ids {q : List BatchItem} {k : String}
    (h : k ∈ q.map (fun i => i.id)) :
    ∃ j, q.find? (fun i => i.id == k) = some j := by
  obtain ⟨it, hit, hk⟩ := List.mem_map.mp h
  exact find?_isSome_of_mem hit k hk

theorem statusById_updateItem_self (q : List BatchItem) (tid : String)
    (f : BatchItem → BatchItem) (hf : ∀ x, (f x).id = x.id)
    (hmem : tid ∈ q.map (fun i => i.id)) :
    ∃ it, q.find? (fun i => i.id == tid) = some it ∧
      statusById (updateItem q tid f) tid = some (f it).status := by
  obtain ⟨it, hit⟩ := find?_isSome_of_mem_ids hmem
  refine ⟨it, hit, ?_⟩
  have hid : it.id = tid := by
    have h := List.find?_some hit
    simpa using h
  rw [statusById_updateItem q tid f hf tid, hit]
  simp [hid]

theorem statusById_of_mem {q : List BatchItem}
    (hnd : (q.map (fun i => i.id)).Nodup) {it : BatchItem} (h : it ∈ q) :
    statusById q it.id = some it.status := by
  unfold statusById
  rw [find?_key_of_mem q hnd it h]
  rfl

theorem resetTargets_map_id (ts q : List BatchItem) :
    (resetTargets ts q).map (fun i => i.id) = q.map (fun i => i.id) := by
  unfold resetTargets
  exact map_key_of_preserve q _ (resetFn_id ts)

theorem processSet_sublist_ids (ts q : List BatchItem) :
    (submissionProcessSet ts q).Sublist (q.map (fun i => i.id)) := by
  unfold submissionProcessSet
  have h1 : ((resetTargets ts q).filter
      (fun i => i.status == Status.pending)).Sublist (resetTargets ts q) :=
    List.filter_sublist _
  have h2 := h1.map (fun i => i.id)
  rw [resetTargets_map_id ts q] at h2
  exact h2

/-- Aggregate invariant of one in-flight `processBatchQueue` run, relating a
reachable scheduler state to the state right after the prologue. -/
structure SchedInv (init s : SchedState) : Prop where
  ids_eq : s.queue.map (fun i => i.id) = init.queue.map (fun i => i.id)
  rtNodup : (s.running ++ s.toStart).Nodup
  rtSub : ∀ k ∈ s.running ++ s.toStart, k ∈ s.queue.map (fun i => i.id)
  runProc : ∀ k ∈ s.running, statusById s.queue k = some Status.processing
  procRun : ∀ k, statusById s.queue k = some Status.processing → k ∈ s.running
  startPend : ∀ k ∈ s.toStart, statusById s.queue k = some Status.pending
  capOK : s.running.length ≤ CONCURRENCY
  order : ∃ don, init.toStart = don ++ s.toStart
  coverage : ∀ k ∈ init.toStart, k ∈ s.running ∨ k ∈ s.toStart ∨
    statusById s.queue k = some Status.completed ∨
    statusById s.queue k = some Status.error

theorem schedInv_init (ts q : List BatchItem)
    (hnd : (q.map (fun i => i.id)).Nodup)
    (hnp : ∀ it ∈ q, ¬it.status = Status.processing) :
    SchedInv (initSched ts q) (initSched ts q) := by
  have hids : (initSched ts q).queue.map (fun i => i.id) = q.map (fun i => i.id) :=
    resetTargets_map_id ts q
  have hndr : ((initSched ts q).queue.map (fun i => i.id)).Nodup := by
    rw [hids]
    exact hnd
  refine ⟨rfl, ?_, ?_, ?_, ?_, ?_, ?_, ⟨[], rfl⟩, ?_⟩
  · show (([] : List String) ++ submissionProcessSet ts q).Nodup
    rw [List.nil_append]
    exact (processSet_sublist_ids ts q).nodup hnd
  · intro k hk
    have hk2 : k ∈ submissionProcessSet ts q := by
      simpa [initSched] using hk
    rw [hids]
    exact (processSet_sublist_ids ts q).subset hk2
  · intro k hk
    cases hk
  · intro k hk
    -- there is no processing item in the initial queue
    unfold statusById at hk
    cases hfind : (initSched ts q).queue.find? (fun i => i.id == k) with
    | none =>
      rw [hfind] at hk
      cases hk
    | some j =>
      rw [hfind] at hk
      have hj : j ∈ (initSched ts q).queue := List.mem_of_find?_eq_some hfind
      have hj2 : j ∈ resetTargets ts q := hj
      unfold resetTargets at hj2
      obtain ⟨it0, hit0, heq⟩ := List.mem_map.mp hj2
      have hst : j.status = Status.processing := by
        simpa using hk
      rw [← heq] at hst
      unfold resetFn at hst
      by_cases hc : ts.any (fun t => t.id == it0.id) = true
      · rw [if_pos hc] at hst
        cases hst
      · rw [if_neg hc] at hst
        exact absurd hst (hnp it0 hit0)
  · intro k hk
    -- every queued-for-start id denotes a pending item
    have hk2 : k ∈ submissionProcessSet ts q := hk
    unfold submissionProcessSet at hk2
    obtain ⟨it0, hit0, hkid⟩ := List.mem_map.mp hk2
    have hmem0 : it0 ∈ resetTargets ts q := (List.mem_filter.mp hit0).1
    have hpend : it0.status = Status.pending := by
      have h := (List.mem_filter.mp hit0).2
      simpa using h
    have hsb := statusById_of_mem hndr hmem0
    rw [hkid] at hsb
    rw [hsb, hpend]
  · show ([] : List String).length ≤ CONCURRENCY
    simp
  · intro k hk
    exact Or.inr (Or.inl hk)

theorem schedInv_finish_aux {init t s2 : SchedState} {id : String}
    {f : BatchItem → BatchItem}
    (hq2 : s2.queue = updateItem t.queue id f)
    (hr2 : s2.running = t.running.erase id)
    (hts2 : s2.toStart = t.toStart)
    (hf : ∀ x, (f x).id = x.id)
    (hterm : ∀ x, (f x).status = Status.completed ∨ (f x).status = Status.error)
    (hid : id ∈ t.running)
    (inv : SchedInv init t) : SchedInv init s2 := by
  obtain ⟨ie, rn, rs, rp, pr, sp, ck, or1, cv⟩ := inv
  have hids2 : s2.queue.map (fun i => i.id) = t.queue.map (fun i => i.id) := by
    rw [hq2]
    exact updateItem_map_id t.queue id f hf
  have hparts := List.nodup_append.mp rn
  have hrnodup : t.running.Nodup := hparts.1
  have hdisj := hparts.2.2
  have hmemids : id ∈ t.queue.map (fun i => i.id) :=
    rs id (List.mem_append_left _ hid)
  obtain ⟨it0, hfind0, hself⟩ :=
    statusById_updateItem_self t.queue id f hf hmemids
  have hselfterm : statusById s2.queue id = some Status.completed ∨
      statusById s2.queue id = some Status.error := by
    rw [hq2, hself]
    rcases hterm it0 with h | h
    · exact Or.inl (by rw [h])
    · exact Or.inr (by rw [h])
  have hne_upd : ∀ k, ¬k = id → statusById s2.queue k = statusById t.queue k := by
    intro k hk
    rw [hq2]
    exact statusById_updateItem_ne t.queue id f hf k hk
  refine ⟨hids2.trans ie, ?_, ?_, ?_, ?_, ?_, ?_, ?_, ?_⟩
  · rw [hr2, hts2]
    exact ((List.erase_sublist id t.running).append
      (List.Sublist.refl t.toStart)).nodup rn
  · intro k hk
    rw [hr2, hts2] at hk
    rw [hids2]
    apply rs
    rcases List.mem_append.mp hk with h | h
    · exact List.mem_append_left _ (List.mem_of_mem_erase h)
    · exact List.mem_append_right _ h
  · intro k hk
    rw [hr2] at hk
    have hk2 := (hrnodup.mem_erase_iff).mp hk
    rw [hne_upd k hk2.1]
    exact rp k hk2.2
  · intro k hk
    by_cases heq : k = id
    · subst heq
      rcases hselfterm with h | h <;> rw [hk] at h <;> cases h
    · rw [hne_upd k heq] at hk
      rw [hr2]
      exact (hrnodup.mem_erase_iff).mpr ⟨heq, pr k hk⟩
  · intro k hk
    rw [hts2] at hk
    have hne : ¬k = id := by
      intro heq
      have hkr : k ∈ t.running := by
        rw [heq]
        exact hid
      exact hdisj hkr hk
    rw [hne_upd k hne]
    exact sp k hk
  · rw [hr2]
    exact le_trans (List.erase_sublist id t.running).length_le ck
  · rw [hts2]
    exact or1
  · intro k hk
    rcases cv k hk with h | h | h | h
    · by_cases heq : k = id
      · subst heq
        rcases hselfterm with h2 | h2
        · exact Or.inr (Or.inr (Or.inl h2))
        · exact Or.inr (Or.inr (Or.inr h2))
      · rw [hr2]
        exact Or.inl ((hrnodup.mem_erase_iff).mpr ⟨heq, h⟩)
    · rw [hts2]
      exact Or.inr (Or.inl h)
    · have hne : ¬k = id := by
        intro heq
        have hp := rp id hid
        rw [← heq, h] at hp
        cases hp
      rw [hne_upd k hne]
      exact Or.inr (Or.inr (Or.inl h))
    · have hne : ¬k = id := by
        intro heq
        have hp := rp id hid
        rw [← heq, h] at hp
        cases hp
      rw [hne_upd k hne]
      exact Or.inr (Or.inr (Or.inr h))

theorem schedInv_step {init s s2 : SchedState} (hstep : SchedStep s s2)
    (inv : SchedInv init s) : SchedInv init s2 := by
  cases hstep with
  | spawn id rest hq hc =>
    obtain ⟨ie, rn, rs, rp, pr, sp, ck, or1, cv⟩ := inv
    have hids2 : (updateItem s.queue id setProcessingF).map (fun i => i.id)
        = s.queue.map (fun i => i.id) :=
      updateItem_map_id s.queue id setProcessingF (fun x => rfl)
    have hnodup2 : (s.running ++ id :: rest).Nodup := by
      rw [← hq]
      exact rn
    have hparts := List.nodup_append.mp hnodup2
    have hidnotrun : id ∉ s.running := by
      intro hmem
      exact hparts.2.2 hmem (List.mem_cons_self id rest)
    have hidnotrest : id ∉ rest := by
      have h := hparts.2.1
      rw [List.nodup_cons] at h
      exact h.1
    have hmemids : id ∈ s.queue.map (fun i => i.id) := by
      apply rs
      rw [hq]
      exact List.mem_append_right _ (List.mem_cons_self id rest)
    obtain ⟨it0, hfind0, hself⟩ :=
      statusById_updateItem_self s.queue id setProcessingF (fun x => rfl) hmemids
    have hselfp : statusById (updateItem s.queue id setProcessingF) id
        = some Status.processing := hself
    refine ⟨hids2.trans ie, ?_, ?_, ?_, ?_, ?_, ?_, ?_, ?_⟩
    · show ((s.running ++ [id]) ++ rest).Nodup
      rw [List.append_assoc, List.singleton_append]
      exact hnodup2
    · intro k hk
      rw [hids2]
      apply rs
      rw [hq]
      revert hk
      simp only [List.mem_append, List.mem_cons, List.mem_singleton]
      tauto
    · intro k hk
      rcases List.mem_append.mp hk with h | h
      · have hne : ¬k = id := by
          intro heq
          exact hidnotrun (heq ▸ h)
        rw [statusById_updateItem_ne s.queue id setProcessingF (fun x => rfl) k hne]
        exact rp k h
      · have heq : k = id := List.mem_singleton.mp h
        rw [heq]
        exact hselfp
    · intro k hk
      by_cases heq : k = id
      · rw [heq]
        exact List.mem_append_right _ (List.mem_singleton_self id)
      · rw [statusById_updateItem_ne s.queue id setProcessingF (fun x => rfl) k heq] at hk
        exact List.mem_append_left _ (pr k hk)
    · intro k hk
      have hkold : k ∈ s.toStart := by
        rw [hq]
        exact List.mem_cons_of_mem id hk
      have hne : ¬k = id := by
        intro heq
        exact hidnotrest (heq ▸ hk)
      rw [statusById_updateItem_ne s.queue id setProcessingF (fun x => rfl) k hne]
      exact sp k hkold
    · show (s.running ++ [id]).length ≤ CONCURRENCY
      rw [List.length_append, List.length_singleton]
      omega
    · obtain ⟨don, hdon⟩ := or1
      refine ⟨don ++ [id], ?_⟩
      rw [hdon, hq, List.append_assoc, List.singleton_append]
    · intro k hk
      rcases cv k hk with h | h | h | h
      · exact Or.inl (List.mem_append_left _ h)
      · rw [hq] at h
        rcases List.mem_cons.mp h with heq | hmem
        · refine Or.inl (List.mem_append_right _ ?_)
          rw [heq]
          exact List.mem_singleton_self id
        · exact Or.inr (Or.inl hmem)
      · have hne : ¬k = id := by
          intro heq
          have hpend := sp id (by rw [hq]; exact List.mem_cons_self id rest)
          rw [← heq, h] at hpend
          cases hpend
        refine Or.inr (Or.inr (Or.inl ?_))
        rw [statusById_updateItem_ne s.queue id setProcessingF (fun x => rfl) k hne]
        exact h
      · have hne : ¬k = id := by
          intro heq
          have hpend := sp id (by rw [hq]; exact List.mem_cons_self id rest)
          rw [← heq, h] at hpend
          cases hpend
        refine Or.inr (Or.inr (Or.inr ?_))
        rw [statusById_updateItem_ne s.queue id setProcessingF (fun x => rfl) k hne]
        exact h
  | setTitle id title hid =>
    obtain ⟨ie, rn, rs, rp, pr, sp, ck, or1, cv⟩ := inv
    have hids2 := updateItem_map_id s.queue id (setTitleF title) (fun x => rfl)
    have hstat := statusById_updateItem_statuspres s.queue id (setTitleF title)
      (fun x => rfl) (fun x => rfl)
    refine ⟨hids2.trans ie, rn, ?_, ?_, ?_, ?_, ck, or1, ?_⟩
    · intro k hk
      rw [hids2]
      exact rs k hk
    · intro k hk
      rw [hstat k]
      exact rp k hk
    · intro k hk
      rw [hstat k] at hk
      exact pr k hk
    · intro k hk
      rw [hstat k]
      exact sp k hk
    · intro k hk
      rcases cv k hk with h | h | h | h
      · exact Or.inl h
      · exact Or.inr (Or.inl h)
      · refine Or.inr (Or.inr (Or.inl ?_))
        rw [hstat k]
        exact h
      · refine Or.inr (Or.inr (Or.inr ?_))
        rw [hstat k]
        exact h
  | progressUpd id p hid =>
    obtain ⟨ie, rn, rs, rp, pr, sp, ck, or1, cv⟩ := inv
    have hids2 := updateItem_map_id s.queue id (setProgressF p) (fun x => rfl)
    have hstat := statusById_updateItem_statuspres s.queue id (setProgressF p)
      (fun x => rfl) (fun x => rfl)
    refine ⟨hids2.trans ie, rn, ?_, ?_, ?_, ?_, ck, or1, ?_⟩
    · intro k hk
      rw [hids2]
      exact rs k hk
    · intro k hk
      rw [hstat k]
      exact rp k hk
    · intro k hk
      rw [hstat k] at hk
      exact pr k hk
    · intro k hk
      rw [hstat k]
      exact sp k hk
    · intro k hk
      rcases cv k hk with h | h | h | h
      · exact Or.inl h
      · exact Or.inr (Or.inl h)
      · refine Or.inr (Or.inr (Or.inl ?_))
        rw [hstat k]
        exact h
      · refine Or.inr (Or.inr (Or.inr ?_))
        rw [hstat k]
        exact h
  | metaFail id msg hid =>
    exact schedInv_finish_aux rfl rfl rfl (fun x => rfl)
      (fun x => Or.inr rfl) hid inv
  | acquireFail id msg hid =>
    exact schedInv_finish_aux rfl rfl rfl (fun x => rfl)
      (fun x => Or.inr rfl) hid inv
  | finishOk id hid =>
    exact schedInv_finish_aux rfl rfl rfl (fun x => rfl)
      (fun x => Or.inl rfl) hid inv

theorem schedInv_reach {ts q : List BatchItem} {s : SchedState}
    (hnd : (q.map (fun i => i.id)).Nodup)
    (hnp : ∀ it ∈ q, ¬it.status = Status.processing)
    (hr : SchedReach (initSched ts q) s) :
    SchedInv (initSched ts q) s := by
  induction hr with
  | refl => exact schedInv_init ts q hnd hnp
  | tail hsteps hstep ih => exact schedInv_step hstep ih

theorem targets_processSet_sublist (ts q : List BatchItem)
    (hsub : ts.Sublist q) :
    (ts.map (fun i => i.id)).Sublist (submissionProcessSet ts q) := by
  have hall : ∀ b ∈ ts.map (resetFn ts), (b.status == Status.pending) = true := by
    intro b hb
    obtain ⟨it0, hit0, rfl⟩ := List.mem_map.mp hb
    have hany : ts.any (fun t => t.id == it0.id) = true := by
      rw [List.any_eq_true]
      exact ⟨it0, hit0, by simp⟩
    rw [resetFn_of_target ts it0 hany]
    simp
  have h1 : ((ts.map (resetFn ts)).filter
      (fun i => i.status == Status.pending)).Sublist
      ((q.map (resetFn ts)).filter (fun i => i.status == Status.pending)) :=
    (hsub.map (resetFn ts)).filter _
  rw [List.filter_eq_self.mpr hall] at h1
  have h2 := h1.map (fun i => i.id)
  rw [map_key_of_preserve ts (resetFn ts) (resetFn_id ts)] at h2
  exact h2

/-- C3 (confirmed): along any run of a submission, at no instant do more
than `CONCURRENCY` items hold status processing; the already-started ids
always form a prefix of the initial pending worklist (a freed slot is
refilled with the next un-started item, taken from the front), and the
submitted items appear in that worklist in their submitted order. -/
theorem bounded_concurrency (itemsToProcess fullQueue : List BatchItem)
    (hnd : (fullQueue.map (fun i => i.id)).Nodup)
    (hsub : itemsToProcess.Sublist fullQueue)
    (hnp : ∀ it ∈ fullQueue, ¬it.status = Status.processing)
    (s : SchedState)
    (hr : SchedReach (initSched itemsToProcess fullQueue) s) :
    (s.queue.filter (fun i => i.status == Status.processing)).length
        ≤ CONCURRENCY ∧
    (∃ don, (initSched itemsToProcess fullQueue).toStart = don ++ s.toStart) ∧
    (itemsToProcess.map (fun i => i.id)).Sublist
      (initSched itemsToProcess fullQueue).toStart := by
  have inv := schedInv_reach hnd hnp hr
  refine ⟨?_, inv.order, targets_processSet_sublist itemsToProcess fullQueue hsub⟩
  have hq0 : (initSched itemsToProcess fullQueue).queue
      = resetTargets itemsToProcess fullQueue := rfl
  have hndq : (s.queue.map (fun i => i.id)).Nodup := by
    rw [inv.ids_eq, hq0, resetTargets_map_id]
    exact hnd
  have hsubl : ((s.queue.filter (fun i => i.status == Status.processing)).map
      (fun i => i.id)).Sublist (s.queue.map (fun i => i.id)) :=
    (List.filter_sublist _).map _
  have hnodupl := hsubl.nodup hndq
  have hsubset : ∀ k ∈ (s.queue.filter
      (fun i => i.status == Status.processing)).map (fun i => i.id),
      k ∈ s.running := by
    intro k hk
    obtain ⟨it0, hit0, rfl⟩ := List.mem_map.mp hk
    have hmem := (List.mem_filter.mp hit0).1
    have hstat : it0.status = Status.processing := by
      have h := (List.mem_filter.mp hit0).2
      simpa using h
    apply inv.procRun
    rw [statusById_of_mem hndq hmem, hstat]
  have hlen := (List.subperm_of_subset hnodupl hsubset).length_le
  rw [List.length_map] at hlen
  exact le_trans hlen inv.capOK

/-- Pending item used in the C3 witness. -/
def c3It : BatchItem := { id := "a", url := "u", status := Status.pending, progress := 0 }

/-- Witness for C3 at the initial state of a one-item submission. -/
theorem bounded_concurrency_witness :
    ((initSched [c3It] [c3It]).queue.filter
      (fun i => i.status == Status.processing)).length ≤ CONCURRENCY :=
  (bounded_concurrency [c3It] [c3It] (by decide)
    (List.Sublist.refl [c3It]) (by decide) _ Relation.ReflTransGen.refl).1

theorem filter_partition_length {α : Type} (l : List α) (p r : α → Bool)
    (h : ∀ x ∈ l, (p x = true ∧ r x = false) ∨ (p x = false ∧ r x = true)) :
    (l.filter p).length + (l.filter r).length = l.length := by
  induction l with
  | nil => rfl
  | cons a tl ih =>
    have ha := h a (List.mem_cons_self a tl)
    have ih2 := ih (fun x hx => h x (List.mem_cons_of_mem a hx))
    rcases ha with ⟨h1, h2⟩ | ⟨h1, h2⟩ <;>
      simp [List.filter_cons, h1, h2] <;> omega

/-- C4 (confirmed): whenever a run of a submission reaches its finished
configuration (empty pool, empty worklist — the state in which
`processBatchQueue`'s promise resolves), every submitted item is in a
terminal status, and the completed plus errored counts over the submitted
ids equal the number of submitted items.  Moreover from any unfinished
configuration a step is always possible, regardless of earlier per-item
failures, so no item failure stalls the rest of the batch. -/
theorem conservation (itemsToProcess fullQueue : List BatchItem)
    (hnd : (fullQueue.map (fun i => i.id)).Nodup)
    (hsub : itemsToProcess.Sublist fullQueue)
    (hnp : ∀ it ∈ fullQueue, ¬it.status = Status.processing)
    (s : SchedState)
    (hr : SchedReach (initSched itemsToProcess fullQueue) s) :
    (s.running = [] → s.toStart = [] →
      (∀ k ∈ itemsToProcess.map (fun i => i.id),
        statusById s.queue k = some Status.completed ∨
        statusById s.queue k = some Status.error) ∧
      ((itemsToProcess.map (fun i => i.id)).filter
          (fun k => statusById s.queue k == some Status.completed)).length
        + ((itemsToProcess.map (fun i => i.id)).filter
          (fun k => statusById s.queue k == some Status.error)).length
        = itemsToProcess.length) ∧
    ((¬s.running = [] ∨ ¬s.toStart = []) → ∃ s2, SchedStep s s2) := by
  have inv := schedInv_reach hnd hnp hr
  constructor
  · intro hrun hts
    have hterm : ∀ k ∈ itemsToProcess.map (fun i => i.id),
        statusById s.queue k = some Status.completed ∨
        statusById s.queue k = some Status.error := by
      intro k hk
      have hk2 : k ∈ (initSched itemsToProcess fullQueue).toStart :=
        (targets_processSet_sublist itemsToProcess fullQueue hsub).subset hk
      rcases inv.coverage k hk2 with h | h | h | h
      · rw [hrun] at h
        cases h
      · rw [hts] at h
        cases h
      · exact Or.inl h
      · exact Or.inr h
    refine ⟨hterm, ?_⟩
    have hdisj : ∀ k ∈ itemsToProcess.map (fun i => i.id),
        ((statusById s.queue k == some Status.completed) = true ∧
          (statusById s.queue k == some Status.error) = false) ∨
        ((statusById s.queue k == some Status.completed) = false ∧
          (statusById s.queue k == some Status.error) = true) := by
      intro k hk
      rcases hterm k hk with h | h
      · exact Or.inl ⟨by rw [h]; decide, by rw [h]; decide⟩
      · exact Or.inr ⟨by rw [h]; decide, by rw [h]; decide⟩
    have hpart := filter_partition_length (itemsToProcess.map (fun i => i.id))
      (fun k => statusById s.queue k == some Status.completed)
      (fun k => statusById s.queue k == some Status.error) hdisj
    rw [List.length_map] at hpart
    exact hpart
  · intro hne
    rcases hrun : s.running with _ | ⟨a, l⟩
    · rcases hts : s.toStart with _ | ⟨b, m⟩
      · rcases hne with h | h
        · exact absurd hrun h
        · exact absurd hts h
      · refine ⟨_, SchedStep.spawn s b m hts ?_⟩
        rw [hrun]
        decide
    · refine ⟨_, SchedStep.finishOk s a ?_⟩
      rw [hrun]
      exact List.mem_cons_self a l

/-- Pending item used in the C4 witness. -/
def c4It : BatchItem := { id := "a", url := "u", status := Status.pending, progress := 0 }

/-- Witness for C4: at the initial state of a one-item submission the run is
unfinished and a scheduler step exists. -/
theorem conservation_witness :
    ∃ s2, SchedStep (initSched [c4It] [c4It]) s2 :=
  (conservation [c4It] [c4It] (by decide) (List.Sublist.refl [c4It]) (by decide)
    _ Relation.ReflTransGen.refl).2 (Or.inr (by decide))

/-- The pool/worklist component of an in-flight submission, as stored in
the global component state. -/
structure SchedCtx where
  running : List String
  toStart : List String
deriving DecidableEq

/-- The relevant mutable state of the `Downloader` component (src/App.tsx
lines 582-596): the batch queue, the completed counter, the processing
guard, the currently selected download type, and the in-flight submission
context when `processBatchQueue` is running. -/
structure GState where
  batchQueue : List BatchItem
  completedCount : Nat
  processingBatch : Bool
  downloadType : DownloadType
  sched : Option SchedCtx
deriving DecidableEq

/-- The scheduler view of a global state with an in-flight submission. -/
def asSched (g : GState) (ctx : SchedCtx) : SchedState :=
  { queue := g.batchQueue, completedCount := g.completedCount,
    running := ctx.running, toStart := ctx.toStart }

/-- The prologue of `processBatchQueue(targets, batchQueue)` (src/App.tsx
lines 818-828, 869-870): set the guard, recompute the completed counter,
reset the targets, and queue the pending items of the updated queue. -/
def beginProcessing (targets : List BatchItem) (g : GState) : GState :=
  { g with
    batchQueue := resetTargets targets g.batchQueue,
    completedCount :=
      (g.batchQueue.filter (fun i => i.status == Status.completed)).length,
    processingBatch := true,
    sched :=
      some { running := [], toStart := submissionProcessSet targets g.batchQueue } }

/-- The effect of `clearQueue` on the global state. -/
def applyClear (g : GState) : GState :=
  { g with
    batchQueue := (clearQueue g.processingBatch g.batchQueue g.completedCount).1,
    completedCount := (clearQueue g.processingBatch g.batchQueue g.completedCount).2 }

/-- Global small-step semantics of the component: the queue operations of
the UI handlers together with the scheduler steps of an in-flight
submission.  Wherever the source generates an item id with
`Math.random().toString(36).substr(2, 9)`, the step carries the generated
ids as a parameter and assumes the resulting queue has pairwise distinct
ids, which is the stated id-uniqueness property of the generator. -/
inductive GStep : GState → GState → Prop
  | addItems (g : GState) (input : String) (ids : Nat → String)
      (hnd2 : ((addToBatch input g.downloadType ids g.batchQueue).map
        (fun i => i.id)).Nodup) :
      GStep g { g with
        batchQueue := addToBatch input g.downloadType ids g.batchQueue }
  | importPl (g : GState) (input : String) (svc : Except String PlaylistInfo)
      (ids : Nat → String)
      (hnd2 : (((importPlaylist input g.downloadType svc ids g.batchQueue).1).map
        (fun i => i.id)).Nodup) :
      GStep g { g with
        batchQueue := (importPlaylist input g.downloadType svc ids g.batchQueue).1 }
  | clearQ (g : GState) : GStep g (applyClear g)
  | setType (g : GState) (dt : DownloadType) :
      GStep g { g with downloadType := dt }
  | startBatch (g : GState) (targets : List BatchItem)
      (h : handleBatchProcess g.processingBatch g.batchQueue = some targets) :
      GStep g (beginProcessing targets g)
  | retryFailedStep (g : GState) (targets : List BatchItem)
      (h : handleRetryFailed g.processingBatch g.batchQueue = some targets) :
      GStep g (beginProcessing targets g)
  | retryOneStep (g : GState) (id : String) (targets : List BatchItem)
      (h : handleRetryItem g.processingBatch g.batchQueue id = some targets) :
      GStep g (beginProcessing targets g)
  | schedStep (g : GState) (ctx : SchedCtx) (s2 : SchedState)
      (hctx : g.sched = some ctx)
      (hstep : SchedStep (asSched g ctx) s2) :
      GStep g { g with
        batchQueue := s2.queue,
        completedCount := s2.completedCount,
        sched := some { running := s2.running, toStart := s2.toStart } }
  | schedDone (g : GState) (ctx : SchedCtx) (hctx : g.sched = some ctx)
      (hrun : ctx.running = []) (hts : ctx.toStart = []) :
      GStep g { g with processingBatch := false, sched := none }

/-- The component's initial state: empty queue, no submission in flight. -/
def initialState : GState :=
  { batchQueue := [], completedCount := 0, processingBatch := false,
    downloadType := DownloadType.video, sched := none }

/-- Reachability along global steps. -/
def GReach : GState → GState → Prop :=
  Relation.ReflTransGen GStep

theorem updateItem_cases {q : List BatchItem} {tid : String}
    {f : BatchItem → BatchItem} {it2 : BatchItem}
    (h : it2 ∈ updateItem q tid f) :
    ∃ it, it ∈ q ∧ ((it.id = tid ∧ it2 = f it) ∨ (¬it.id = tid ∧ it2 = it)) := by
  unfold updateItem at h
  obtain ⟨it, hit, heq⟩ := List.mem_map.mp h
  by_cases hid : it.id = tid
  · refine ⟨it, hit, Or.inl ⟨hid, ?_⟩⟩
    rw [← heq, if_pos (by simp [hid])]
  · refine ⟨it, hit, Or.inr ⟨hid, ?_⟩⟩
    rw [← heq, if_neg (by simp [hid])]

theorem schedStep_map_id {s s2 : SchedState} (h : SchedStep s s2) :
    s2.queue.map (fun i => i.id) = s.queue.map (fun i => i.id) := by
  cases h with
  | spawn id rest hq hc => exact updateItem_map_id _ _ _ (fun x => rfl)
  | setTitle id title hid => exact updateItem_map_id _ _ _ (fun x => rfl)
  | progressUpd id p hid => exact updateItem_map_id _ _ _ (fun x => rfl)
  | metaFail id msg hid => exact updateItem_map_id _ _ _ (fun x => rfl)
  | acquireFail id msg hid => exact updateItem_map_id _ _ _ (fun x => rfl)
  | finishOk id hid => exact updateItem_map_id _ _ _ (fun x => rfl)

theorem comp100_schedStep {s s2 : SchedState} (hstep : SchedStep s s2)
    (hnd : (s.queue.map (fun i => i.id)).Nodup)
    (hrp : ∀ k ∈ s.running, statusById s.queue k = some Status.processing)
    (hc : ∀ it ∈ s.queue, it.status = Status.completed → it.progress = 100) :
    ∀ it ∈ s2.queue, it.status = Status.completed → it.progress = 100 := by
  cases hstep with
  | spawn id rest hq hcap =>
    intro it2 h2 hcomp
    obtain ⟨it, hit, hcase⟩ := updateItem_cases h2
    rcases hcase with ⟨hid, rfl⟩ | ⟨hid, rfl⟩
    · simp [setProcessingF] at hcomp
    · exact hc _ hit hcomp
  | setTitle id title hid =>
    intro it2 h2 hcomp
    obtain ⟨it, hit, hcase⟩ := updateItem_cases h2
    rcases hcase with ⟨hid2, rfl⟩ | ⟨hid2, rfl⟩
    · exact hc it hit hcomp
    · exact hc _ hit hcomp
  | progressUpd id p hid =>
    intro it2 h2 hcomp
    obtain ⟨it, hit, hcase⟩ := updateItem_cases h2
    rcases hcase with ⟨hid2, rfl⟩ | ⟨hid2, rfl⟩
    · have hsb := statusById_of_mem hnd hit
      rw [hid2, hrp id hid] at hsb
      have hstat : it.status = Status.processing := by
        injection hsb with h3
        exact h3.symm
      have hcomp2 : it.status = Status.completed := hcomp
      rw [hstat] at hcomp2
      cases hcomp2
    · exact hc _ hit hcomp
  | metaFail id msg hid =>
    intro it2 h2 hcomp
    obtain ⟨it, hit, hcase⟩ := updateItem_cases h2
    rcases hcase with ⟨hid2, rfl⟩ | ⟨hid2, rfl⟩
    · simp [metaFailF] at hcomp
    · exact hc _ hit hcomp
  | acquireFail id msg hid =>
    intro it2 h2 hcomp
    obtain ⟨it, hit, hcase⟩ := updateItem_cases h2
    rcases hcase with ⟨hid2, rfl⟩ | ⟨hid2, rfl⟩
    · simp [acquireFailF] at hcomp
    · exact hc _ hit hcomp
  | finishOk id hid =>
    intro it2 h2 hcomp
    obtain ⟨it, hit, hcase⟩ := updateItem_cases h2
    rcases hcase with ⟨hid2, rfl⟩ | ⟨hid2, rfl⟩
    · rfl
    · exact hc _ hit hcomp

theorem find?_append_of_some {q r : List BatchItem} {p : BatchItem → Bool}
    {j : BatchItem} (h : q.find? p = some j) : (q ++ r).find? p = some j := by
  induction q with
  | nil => exact absurd h (by simp)
  | cons a t ih =>
    rw [List.cons_append]
    by_cases ha : p a = true
    · rw [List.find?_cons_of_pos _ ha] at h
      rw [List.find?_cons_of_pos _ ha]
      exact h
    · rw [List.find?_cons_of_neg _ ha] at h
      rw [List.find?_cons_of_neg _ ha]
      exact ih h

theorem statusById_append_left {q r : List BatchItem} {k : String} {st : Status}
    (h : statusById q k = some st) : statusById (q ++ r) k = some st := by
  unfold statusById at h ⊢
  cases hf : q.find? (fun i => i.id == k) with
  | none =>
    rw [hf] at h
    cases h
  | some j =>
    rw [hf] at h
    rw [find?_append_of_some hf]
    exact h

theorem urlBatchItems_status (dt : DownloadType) (ids : Nat → String) :
    ∀ n l, ∀ it ∈ urlBatchItems dt ids n l, it.status = Status.pending := by
  intro n l
  induction l generalizing n with
  | nil =>
    intro it h
    cases h
  | cons u rest ih =>
    intro it h
    rcases List.mem_cons.mp h with rfl | hmem
    · rfl
    · exact ih (n + 1) it hmem

theorem playlistBatchItems_status (dt : DownloadType) (ids : Nat → String) :
    ∀ n l, ∀ it ∈ playlistBatchItems dt ids n l, it.status = Status.pending := by
  intro n l
  induction l generalizing n with
  | nil =>
    intro it h
    cases h
  | cons e rest ih =>
    intro it h
    rcases List.mem_cons.mp h with rfl | hmem
    · rfl
    · exact ih (n + 1) it hmem

theorem addToBatch_queue_cases (input : String) (dt : DownloadType)
    (ids : Nat → String) (q : List BatchItem) :
    addToBatch input dt ids q = q ∨
    ∃ urls, addToBatch input dt ids q = q ++ urlBatchItems dt ids 0 urls := by
  unfold addToBatch
  by_cases h1 : (jsTrim input == "") = true
  · rw [if_pos h1]
    exact Or.inl rfl
  · rw [if_neg h1]
    exact Or.inr ⟨_, rfl⟩

theorem importPlaylist_queue_cases (input : String) (dt : DownloadType)
    (svc : Except String PlaylistInfo) (ids : Nat → String)
    (q : List BatchItem) :
    (importPlaylist input dt svc ids q).1 = q ∨
    ∃ pl : PlaylistInfo, (importPlaylist input dt svc ids q).1
      = q ++ playlistBatchItems dt ids 0 pl.items := by
  by_cases h1 : (jsTrim input == "") = true
  · left
    have h : importPlaylist input dt svc ids q = (q, ImportOutcome.noInput) := by
      unfold importPlaylist
      rw [if_pos h1]
    rw [h]
  · by_cases h2 : (!(strIncludes (jsTrim input) "playlist")
        && !(strIncludes (jsTrim input) "list=")) = true
    · left
      have h : importPlaylist input dt svc ids q
          = (q, ImportOutcome.notPlaylist) := by
        unfold importPlaylist
        rw [if_neg h1, if_pos h2]
      rw [h]
    · cases svc with
      | error msg =>
        left
        have h : importPlaylist input dt (Except.error msg) ids q
            = (q, ImportOutcome.serviceErr msg) := by
          unfold importPlaylist
          rw [if_neg h1, if_neg h2]
        rw [h]
      | ok pl =>
        have h : importPlaylist input dt (Except.ok pl) ids q
            = if pl.items.length == 0 then (q, ImportOutcome.emptyPlaylist)
              else (q ++ playlistBatchItems dt ids 0 pl.items,
                    ImportOutcome.imported pl.items.length pl.title) := by
          unfold importPlaylist
          rw [if_neg h1, if_neg h2]
        by_cases h3 : (pl.items.length == 0) = true
        · left
          rw [h, if_pos h3]
        · right
          refine ⟨pl, ?_⟩
          rw [h, if_neg h3]

/-- The queue-consistency facts of an in-flight submission that the global
invariant tracks. -/
structure CtxInv (s : SchedState) : Prop where
  rtNodup : (s.running ++ s.toStart).Nodup
  rtSub : ∀ k ∈ s.running ++ s.toStart, k ∈ s.queue.map (fun i => i.id)
  runProc : ∀ k ∈ s.running, statusById s.queue k = some Status.processing
  startPend : ∀ k ∈ s.toStart, statusById s.queue k = some Status.pending

theorem ctxInv_finish_aux {t s2 : SchedState} {id : String}
    {f : BatchItem → BatchItem}
    (hq2 : s2.queue = updateItem t.queue id f)
    (hr2 : s2.running = t.running.erase id)
    (hts2 : s2.toStart = t.toStart)
    (hf : ∀ x, (f x).id = x.id)
    (hid : id ∈ t.running)
    (inv : CtxInv t) : CtxInv s2 := by
  obtain ⟨rn, rs, rp, sp⟩ := inv
  have hids2 : s2.queue.map (fun i => i.id) = t.queue.map (fun i => i.id) := by
    rw [hq2]
    exact updateItem_map_id t.queue id f hf
  have hparts := List.nodup_append.mp rn
  have hrnodup := hparts.1
  have hdisj := hparts.2.2
  have hne_upd : ∀ k, ¬k = id → statusById s2.queue k = statusById t.queue k := by
    intro k hk
    rw [hq2]
    exact statusById_updateItem_ne t.queue id f hf k hk
  refine ⟨?_, ?_, ?_, ?_⟩
  · rw [hr2, hts2]
    exact ((List.erase_sublist id t.running).append
      (List.Sublist.refl t.toStart)).nodup rn
  · intro k hk
    rw [hr2, hts2] at hk
    rw [hids2]
    apply rs
    rcases List.mem_append.mp hk with h | h
    · exact List.mem_append_left _ (List.mem_of_mem_erase h)
    · exact List.mem_append_right _ h
  · intro k hk
    rw [hr2] at hk
    have hk2 := (hrnodup.mem_erase_iff).mp hk
    rw [hne_upd k hk2.1]
    exact rp k hk2.2
  · intro k hk
    rw [hts2] at hk
    have hne : ¬k = id := by
      intro heq
      have hkr : k ∈ t.running := by
        rw [heq]
        exact hid
      exact hdisj hkr hk
    rw [hne_upd k hne]
    exact sp k hk

theorem ctxInv_step {s s2 : SchedState} (hstep : SchedStep s s2)
    (inv : CtxInv s) : CtxInv s2 := by
  cases hstep with
  | spawn id rest hq hc =>
    obtain ⟨rn, rs, rp, sp⟩ := inv
    have hids2 : (updateItem s.queue id setProcessingF).map (fun i => i.id)
        = s.queue.map (fun i => i.id) :=
      updateItem_map_id s.queue id setProcessingF (fun x => rfl)
    have hnodup2 : (s.running ++ id :: rest).Nodup := by
      rw [← hq]
      exact rn
    have hparts := List.nodup_append.mp hnodup2
    have hidnotrun : id ∉ s.running := by
      intro hmem
      exact hparts.2.2 hmem (List.mem_cons_self id rest)
    have hidnotrest : id ∉ rest := by
      have h := hparts.2.1
      rw [List.nodup_cons] at h
      exact h.1
    have hmemids : id ∈ s.queue.map (fun i => i.id) := by
      apply rs
      rw [hq]
      exact List.mem_append_right _ (List.mem_cons_self id rest)
    obtain ⟨it0, hfind0, hself⟩ :=
      statusById_updateItem_self s.queue id setProcessingF (fun x => rfl) hmemids
    have hselfp : statusById (updateItem s.queue id setProcessingF) id
        = some Status.processing := hself
    refine ⟨?_, ?_, ?_, ?_⟩
    · show ((s.running ++ [id]) ++ rest).Nodup
      rw [List.append_assoc, List.singleton_append]
      exact hnodup2
    · intro k hk
      rw [hids2]
      apply rs
      rw [hq]
      revert hk
      simp only [List.mem_append, List.mem_cons, List.mem_singleton]
      tauto
    · intro k hk
      rcases List.mem_append.mp hk with h | h
      · have hne : ¬k = id := by
          intro heq
          exact hidnotrun (heq ▸ h)
        rw [statusById_updateItem_ne s.queue id setProcessingF (fun x => rfl) k hne]
        exact rp k h
      · have heq : k = id := List.mem_singleton.mp h
        rw [heq]
        exact hselfp
    · intro k hk
      have hkold : k ∈ s.toStart := by
        rw [hq]
        exact List.mem_cons_of_mem id hk
      have hne : ¬k = id := by
        intro heq
        exact hidnotrest (heq ▸ hk)
      rw [statusById_updateItem_ne s.queue id setProcessingF (fun x => rfl) k hne]
      exact sp k hkold
  | setTitle id title hid =>
    obtain ⟨rn, rs, rp, sp⟩ := inv
    have hids2 := updateItem_map_id s.queue id (setTitleF title) (fun x => rfl)
    have hstat := statusById_updateItem_statuspres s.queue id (setTitleF title)
      (fun x => rfl) (fun x => rfl)
    refine ⟨rn, ?_, ?_, ?_⟩
    · intro k hk
      rw [hids2]
      exact rs k hk
    · intro k hk
      rw [hstat k]
      exact rp k hk
    · intro k hk
      rw [hstat k]
      exact sp k hk
  | progressUpd id p hid =>
    obtain ⟨rn, rs, rp, sp⟩ := inv
    have hids2 := updateItem_map_id s.queue id (setProgressF p) (fun x => rfl)
    have hstat := statusById_updateItem_statuspres s.queue id (setProgressF p)
      (fun x => rfl) (fun x => rfl)
    refine ⟨rn, ?_, ?_, ?_⟩
    · intro k hk
      rw [hids2]
      exact rs k hk
    · intro k hk
      rw [hstat k]
      exact rp k hk
    · intro k hk
      rw [hstat k]
      exact sp k hk
  | metaFail id msg hid =>
    exact ctxInv_finish_aux rfl rfl rfl (fun x => rfl) hid inv
  | acquireFail id msg hid =>
    exact ctxInv_finish_aux rfl rfl rfl (fun x => rfl) hid inv
  | finishOk id hid =>
    exact ctxInv_finish_aux rfl rfl rfl (fun x => rfl) hid inv

/-- Global invariant of the `Downloader` component state. -/
structure GInv (g : GState) : Prop where
  idsNodup : (g.batchQueue.map (fun i => i.id)).Nodup
  comp100 : ∀ it ∈ g.batchQueue, it.status = Status.completed → it.progress = 100
  procFlag : ∀ ctx, g.sched = some ctx → g.processingBatch = true
  ctxOk : ∀ ctx, g.sched = some ctx → CtxInv (asSched g ctx)

theorem gInv_initial : GInv initialState := by
  refine ⟨?_, ?_, ?_, ?_⟩
  · simp [initialState]
  · intro it h hc
    exact absurd h (by simp [initialState])
  · intro ctx h
    exact absurd h (by simp [initialState])
  · intro ctx h
    exact absurd h (by simp [initialState])

theorem gInv_begin {g : GState} (targets : List BatchItem)
    (inv : GInv g) : GInv (beginProcessing targets g) := by
  obtain ⟨nd, c100, pf, cok⟩ := inv
  have hids : ((beginProcessing targets g).batchQueue.map (fun i => i.id))
      = g.batchQueue.map (fun i => i.id) := by
    show ((resetTargets targets g.batchQueue).map (fun i => i.id)) = _
    exact resetTargets_map_id targets g.batchQueue
  refine ⟨?_, ?_, ?_, ?_⟩
  · rw [hids]
    exact nd
  · intro it2 h2 hcomp
    have h2q : it2 ∈ resetTargets targets g.batchQueue := h2
    unfold resetTargets at h2q
    obtain ⟨it, hit, heq⟩ := List.mem_map.mp h2q
    unfold resetFn at heq
    by_cases hc : targets.any (fun t => t.id == it.id) = true
    · rw [if_pos hc] at heq
      rw [← heq] at hcomp
      simp at hcomp
    · rw [if_neg hc] at heq
      rw [← heq] at hcomp ⊢
      exact c100 it hit hcomp
  · intro ctx h
    rfl
  · intro ctx h
    have h3 := Option.some.inj h
    subst h3
    have hndr : ((resetTargets targets g.batchQueue).map (fun i => i.id)).Nodup := by
      rw [resetTargets_map_id]
      exact nd
    refine ⟨?_, ?_, ?_, ?_⟩
    · show (([] : List String) ++ submissionProcessSet targets g.batchQueue).Nodup
      rw [List.nil_append]
      exact (processSet_sublist_ids targets g.batchQueue).nodup nd
    · intro k hk
      have hk1 : k ∈ ([] : List String)
          ++ submissionProcessSet targets g.batchQueue := hk
      rw [List.nil_append] at hk1
      show k ∈ (resetTargets targets g.batchQueue).map (fun i => i.id)
      rw [resetTargets_map_id]
      exact (processSet_sublist_ids targets g.batchQueue).subset hk1
    · intro k hk
      exact absurd hk (List.not_mem_nil k)
    · intro k hk
      have hk2 : k ∈ submissionProcessSet targets g.batchQueue := hk
      unfold submissionProcessSet at hk2
      obtain ⟨it0, hit0, hkid⟩ := List.mem_map.mp hk2
      have hmem0 : it0 ∈ resetTargets targets g.batchQueue :=
        (List.mem_filter.mp hit0).1
      have hpend : it0.status = Status.pending := by
        have hx := (List.mem_filter.mp hit0).2
        simpa using hx
      have hsb := statusById_of_mem hndr hmem0
      rw [hkid] at hsb
      show statusById (resetTargets targets g.batchQueue) k = some Status.pending
      rw [hsb, hpend]

theorem gInv_append_chunk {g : GState} (chunk : List BatchItem)
    (hnd2 : ((g.batchQueue ++ chunk).map (fun i => i.id)).Nodup)
    (hpend : ∀ it ∈ chunk, it.status = Status.pending)
    (inv : GInv g) : GInv { g with batchQueue := g.batchQueue ++ chunk } := by
  obtain ⟨nd, c100, pf, cok⟩ := inv
  refine ⟨hnd2, ?_, pf, ?_⟩
  · intro it2 h2 hcomp
    rcases List.mem_append.mp h2 with h | h
    · exact c100 it2 h hcomp
    · have hp := hpend it2 h
      rw [hp] at hcomp
      exact absurd hcomp (by decide)
  · intro ctx h
    obtain ⟨rn, rs, rp, sp⟩ := cok ctx h
    refine ⟨rn, ?_, ?_, ?_⟩
    · intro k hk
      show k ∈ (g.batchQueue ++ chunk).map (fun i => i.id)
      rw [List.map_append]
      exact List.mem_append_left _ (rs k hk)
    · intro k hk
      exact statusById_append_left (rp k hk)
    · intro k hk
      exact statusById_append_left (sp k hk)

theorem gInv_step {g g2 : GState} (hstep : GStep g g2) (inv : GInv g) :
    GInv g2 := by
  cases hstep with
  | addItems input ids hnd2 =>
    rcases addToBatch_queue_cases input g.downloadType ids g.batchQueue with
      heq | ⟨urls, heq⟩
    · rw [heq]
      exact ⟨inv.idsNodup, inv.comp100, inv.procFlag, inv.ctxOk⟩
    · rw [heq]
      rw [heq] at hnd2
      exact gInv_append_chunk _ hnd2
        (fun it hmem => urlBatchItems_status g.downloadType ids 0 urls it hmem) inv
  | importPl input svc ids hnd2 =>
    rcases importPlaylist_queue_cases input g.downloadType svc ids g.batchQueue with
      heq | ⟨pl, heq⟩
    · rw [heq]
      exact ⟨inv.idsNodup, inv.comp100, inv.procFlag, inv.ctxOk⟩
    · rw [heq]
      rw [heq] at hnd2
      exact gInv_append_chunk _ hnd2
        (fun it hmem =>
          playlistBatchItems_status g.downloadType ids 0 pl.items it hmem) inv
  | clearQ =>
    by_cases hflag : g.processingBatch = true
    · have heq : applyClear g = g := by
        unfold applyClear clearQueue
        rw [if_pos hflag]
      rw [heq]
      exact inv
    · have hflag2 : g.processingBatch = false := by
        cases hb : g.processingBatch
        · rfl
        · exact absurd hb hflag
      have heq : applyClear g = { g with batchQueue := [], completedCount := 0 } := by
        unfold applyClear clearQueue
        rw [if_neg (by rw [hflag2]; simp)]
      rw [heq]
      have hsnone : g.sched = none := by
        cases hs : g.sched with
        | none => rfl
        | some ctx =>
          have := inv.procFlag ctx hs
          rw [this] at hflag2
          cases hflag2
      refine ⟨by simp, ?_, ?_, ?_⟩
      · intro it h hc
        exact absurd h (List.not_mem_nil it)
      · intro ctx h
        have h2 : g.sched = some ctx := h
        rw [hsnone] at h2
        cases h2
      · intro ctx h
        have h2 : g.sched = some ctx := h
        rw [hsnone] at h2
        cases h2
  | setType dt =>
    exact ⟨inv.idsNodup, inv.comp100, inv.procFlag, inv.ctxOk⟩
  | startBatch targets h =>
    exact gInv_begin targets inv
  | retryFailedStep targets h =>
    exact gInv_begin targets inv
  | retryOneStep id targets h =>
    exact gInv_begin targets inv
  | schedStep ctx s2 hctx hstep =>
    refine ⟨?_, ?_, ?_, ?_⟩
    · show (s2.queue.map (fun i => i.id)).Nodup
      rw [schedStep_map_id hstep]
      exact inv.idsNodup
    · exact comp100_schedStep hstep inv.idsNodup
        ((inv.ctxOk ctx hctx).runProc) inv.comp100
    · intro ctx2 h
      exact inv.procFlag ctx hctx
    · intro ctx2 h
      have h3 := Option.some.inj h
      subst h3
      exact ctxInv_step hstep (inv.ctxOk ctx hctx)
  | schedDone ctx hctx hrun hts =>
    refine ⟨inv.idsNodup, inv.comp100, ?_, ?_⟩
    · intro ctx2 h
      exact Option.noConfusion h
    · intro ctx2 h
      exact Option.noConfusion h

/-- C9 (confirmed): in every component state reachable from the empty
initial state by any interleaving of addToBatch, importPlaylist, clearQueue,
media-type changes, start/retryFailed/retryOne submissions and the
scheduler steps of `processBatchQueue`, every item whose status is
completed has progress 100. -/
theorem completed_progress_invariant (g : GState)
    (hr : GReach initialState g) :
    ∀ it ∈ g.batchQueue, it.status = Status.completed → it.progress = 100 := by
  have inv : GInv g := by
    induction hr with
    | refl => exact gInv_initial
    | tail hsteps hstep ih => exact gInv_step hstep ih
  exact inv.comp100

/-- The single pending item created by the C9 witness run. -/
def c9Item0 : BatchItem :=
  { id := "w", url := "https://a", status := Status.pending, progress := 0,
    type := some DownloadType.video }

/-- The item after the C9 witness run finished it. -/
def c9FinalItem : BatchItem :=
  { id := "w", url := "https://a", status := Status.completed, progress := 100,
    type := some DownloadType.video }

/-- Intermediate states of the C9 witness run. -/
def c9G1 : GState :=
  { batchQueue := [c9Item0], completedCount := 0, processingBatch := false,
    downloadType := DownloadType.video, sched := none }

/-- State after the C9 witness run starts the batch. -/
def c9G2 : GState :=
  { batchQueue := [c9Item0], completedCount := 0, processingBatch := true,
    downloadType := DownloadType.video,
    sched := some { running := [], toStart := ["w"] } }

/-- State after the C9 witness run admits the item. -/
def c9G3 : GState :=
  { batchQueue := [{ c9Item0 with status := Status.processing }],
    completedCount := 0, processingBatch := true,
    downloadType := DownloadType.video,
    sched := some { running := ["w"], toStart := [] } }

/-- State after the C9 witness run finishes the item. -/
def c9G4 : GState :=
  { batchQueue := [c9FinalItem], completedCount := 1, processingBatch := true,
    downloadType := DownloadType.video,
    sched := some { running := [], toStart := [] } }

/-- Witness for C9: a concrete four-step run (add one URL, start the batch,
admit the item, finish it) reaches a state whose completed item has
progress 100. -/
theorem completed_progress_invariant_witness : c9FinalItem.progress = 100 := by
  have s1 : GStep initialState c9G1 := by
    have h := GStep.addItems initialState "https://a" (fun _ => "w") (by decide)
    have heq : ({ initialState with
        batchQueue := addToBatch "https://a" initialState.downloadType
          (fun _ => "w") initialState.batchQueue } : GState) = c9G1 := by decide
    rw [heq] at h
    exact h
  have s2 : GStep c9G1 c9G2 := by
    have h := GStep.startBatch c9G1 [c9Item0] (by decide)
    have heq : beginProcessing [c9Item0] c9G1 = c9G2 := by decide
    rw [heq] at h
    exact h
  have s3 : GStep c9G2 c9G3 := by
    have h := GStep.schedStep c9G2 ⟨[], ["w"]⟩ _ (by decide)
      (SchedStep.spawn (asSched c9G2 ⟨[], ["w"]⟩) "w" [] (by decide) (by decide))
    refine Eq.mp ?_ h
    congr 1
  have s4 : GStep c9G3 c9G4 := by
    have h := GStep.schedStep c9G3 ⟨["w"], []⟩ _ (by decide)
      (SchedStep.finishOk (asSched c9G3 ⟨["w"], []⟩) "w" (by decide))
    refine Eq.mp ?_ h
    congr 1
  have hreach : GReach initialState c9G4 :=
    Relation.ReflTransGen.head s1
      (Relation.ReflTransGen.head s2
        (Relation.ReflTransGen.head s3
          (Relation.ReflTransGen.head s4 Relation.ReflTransGen.refl)))
  exact completed_progress_invariant c9G4 hreach c9FinalItem (by decide) rfl

end MediaFlow
